import Mathlib

/-!
Verification of the manod-tools batch orchestration engine.

This file shallowly embeds the core orchestration code of the repository
(`process.py`, `src/model/start.py`, `src/utils/logs.py`) and proves or
refutes the specification claims about it.  Python randomness is modelled
by explicit streams of natural numbers, sleeps and reports by events in an
explicit trace, and Python exceptions by `Except` / explicit outcome
constructors.
-/

namespace ManodTools

/-! ## Retry executor (`process.py`, `_execute_with_retries`)

A wrapped operation is an async Python function; per invocation it either
returns a Python value or raises.  Only the shape of the returned value
matters to the executor (lines 99-101 of `process.py`): a `bool`, a tuple
(of which only whether its first component `is True` is inspected), or
anything else. -/

/-- Shape of a value returned by a wrapped operation, as inspected by
`_execute_with_retries`: a Python `bool`, a tuple whose first component
is or is not the literal `True`, or any other value. -/
inductive OpResult where
  | boolRes (b : Bool)
  | tupleRes (firstIsTrue : Bool)
  | otherRes
deriving DecidableEq, Repr

/-- One invocation of a wrapped operation either returns a value or
raises an exception. -/
inductive OpOutcome where
  | ret (r : OpResult)
  | raise
deriving DecidableEq, Repr

/-- `process.py` lines 99-101: success means
`isinstance(result, tuple) and result[0] is True`, or
`isinstance(result, bool) and result`. -/
def isSuccess : OpResult → Bool
  | OpResult.boolRes b => b
  | OpResult.tupleRes f => f
  | OpResult.otherRes => false

/-- An outcome that returns a value which does not count as success. -/
def failsRet : OpOutcome → Bool
  | OpOutcome.ret r => !isSuccess r
  | OpOutcome.raise => false

/-- An outcome that returns a value which counts as success. -/
def succeedsRet : OpOutcome → Bool
  | OpOutcome.ret r => isSuccess r
  | OpOutcome.raise => false

/-- Observable events of one `_execute_with_retries` call: the invocation
of the wrapped operation at a given 0-based attempt index, and the
inter-attempt sleep with its sampled duration. -/
inductive RetryEvent where
  | invoke (attempt : Nat)
  | pause (secs : Nat)
deriving DecidableEq, Repr

/-- The loop body of `_execute_with_retries` (`process.py` lines 97-108),
with `attempts = config.SETTINGS.ATTEMPTS`, starting from attempt index
`attempt`; `fuel` is the number of remaining loop iterations, so that
`attempt + fuel = attempts` at every call.  `op n` is the outcome of the
`n`-th invocation of the wrapped operation; `pauses n` the duration
sampled by `random.randint` after a failed attempt `n`.  The result is
`Except.error ()` when an invocation raises (the executor has no handler:
the exception propagates), otherwise `Except.ok` of the returned boolean,
paired with the trace of events. -/
def retryAux (op : Nat → OpOutcome) (pauses : Nat → Nat) (attempts : Nat) :
    Nat → Nat → Except Unit Bool × List RetryEvent
  | _, 0 => (Except.ok false, [])
  | attempt, fuel + 1 =>
    match op attempt with
    | OpOutcome.raise => (Except.error (), [RetryEvent.invoke attempt])
    | OpOutcome.ret r =>
      if isSuccess r then (Except.ok true, [RetryEvent.invoke attempt])
      else if attempt < attempts - 1 then
        let rest := retryAux op pauses attempts (attempt + 1) fuel
        (rest.1, RetryEvent.invoke attempt :: RetryEvent.pause (pauses attempt) :: rest.2)
      else (Except.ok false, [RetryEvent.invoke attempt])

/-- `_execute_with_retries(function, config, log_prefix)` with
`config.SETTINGS.ATTEMPTS = attempts`. -/
def executeWithRetries (attempts : Nat) (op : Nat → OpOutcome) (pauses : Nat → Nat) :
    Except Unit Bool × List RetryEvent :=
  retryAux op pauses attempts 0 attempts

/-- Number of operation invocations recorded in a retry trace. -/
def invokeCount (evs : List RetryEvent) : Nat :=
  evs.countP fun e => match e with | RetryEvent.invoke _ => true | _ => false

/-- Number of inter-attempt pauses recorded in a retry trace. -/
def pauseCount (evs : List RetryEvent) : Nat :=
  evs.countP fun e => match e with | RetryEvent.pause _ => true | _ => false

/-- Trace of `d` consecutive failed (value-returning) attempts that are
each followed by an inter-attempt pause, starting at attempt `a`. -/
def failPairTrace (pauses : Nat → Nat) : Nat → Nat → List RetryEvent
  | _, 0 => []
  | a, d + 1 =>
    RetryEvent.invoke a :: RetryEvent.pause (pauses a) :: failPairTrace pauses (a + 1) d

/-- Trace of `fuel` consecutive failed (value-returning) attempts running
to the end of the budget: every attempt but the last is followed by a
pause. -/
def failTrace (pauses : Nat → Nat) : Nat → Nat → List RetryEvent
  | _, 0 => []
  | a, 1 => [RetryEvent.invoke a]
  | a, fuel + 2 =>
    RetryEvent.invoke a :: RetryEvent.pause (pauses a) :: failTrace pauses (a + 1) (fuel + 1)

/-! ## Account pipeline (`process.py`, `account_flow`)

`account_flow` (lines 76-92) sleeps, builds a `Start` instance, runs
`initialize` and then `flow` through `_execute_with_retries`, combining
the two booleans with `&=` (which evaluates its right operand eagerly),
reports success or error exactly once, and catches any exception by
reporting an error.  The random sleeps and instance construction produce
no events relevant to the claims. -/

/-- Observable events of one `account_flow` call: retry events of the
initialize phase, retry events of the flow phase, and the single outcome
report appended under the success or the error ledger root by
`report_success` / `report_error` (`src/utils/logs.py`). -/
inductive PipeEvent where
  | initEv (e : RetryEvent)
  | flowEv (e : RetryEvent)
  | reportSuccess
  | reportError
deriving DecidableEq, Repr

/-- `account_flow` (`process.py` lines 76-92): `initOp`/`flowOp` give the
per-invocation outcomes of `instance.initialize` / `instance.flow`, and
`p1`/`p2` the sampled inter-attempt pauses of the two retry calls.  A
propagated exception from either retry call is caught by the
`except Exception` handler, which reports an error; otherwise line 86
reports success exactly when both phases succeeded.  Note that line 84
(`success &= await _execute_with_retries(instance.flow, ...)`) runs the
flow phase unconditionally: `&=` does not short-circuit. -/
def accountFlow (attempts : Nat) (initOp flowOp : Nat → OpOutcome) (p1 p2 : Nat → Nat) :
    List PipeEvent :=
  let initRun := executeWithRetries attempts initOp p1
  let initEvs := initRun.2.map PipeEvent.initEv
  match initRun.1 with
  | Except.error _ => initEvs ++ [PipeEvent.reportError]
  | Except.ok s1 =>
    let flowRun := executeWithRetries attempts flowOp p2
    let flowEvs := flowRun.2.map PipeEvent.flowEv
    match flowRun.1 with
    | Except.error _ => initEvs ++ flowEvs ++ [PipeEvent.reportError]
    | Except.ok s2 =>
      initEvs ++ flowEvs ++
        [if s1 && s2 then PipeEvent.reportSuccess else PipeEvent.reportError]

/-- Number of outcome reports (of either kind) in a pipeline trace. -/
def reportCount (t : List PipeEvent) : Nat :=
  t.countP fun e =>
    match e with
    | PipeEvent.reportSuccess => true
    | PipeEvent.reportError => true
    | _ => false

/-- Number of success reports in a pipeline trace. -/
def successReportCount (t : List PipeEvent) : Nat :=
  t.countP fun e => match e with | PipeEvent.reportSuccess => true | _ => false

/-- Number of error reports in a pipeline trace. -/
def errorReportCount (t : List PipeEvent) : Nat :=
  t.countP fun e => match e with | PipeEvent.reportError => true | _ => false

/-! ## Flow operation (`src/model/start.py`, `Start.flow`)

`Start.flow` (lines 55-95) checks the session, plans the task sequence —
drawing `random.choice` once per list-valued task slot — logs the plan,
then executes each planned task followed by a randomized pause.  The
whole body sits in one `try`/`except` that turns any exception into a
`False` return. -/

/-- A configured task slot (`config.FLOW.TASKS` entry): either a single
task name or a list of alternatives from which `random.choice` picks
one. -/
inductive TaskSpec where
  | single (name : String)
  | choice (alts : List String)
deriving DecidableEq, Repr

/-- Outcome of awaiting one task handler in `Start._execute_task`: the
handler returns (its value is discarded) or raises. -/
inductive TaskOutcome where
  | ret
  | raise
deriving DecidableEq, Repr

/-- Observable events of one `Start.flow` invocation: execution of the
task at position `k` (0-based) with its lowered name, and the
inter-task pause of `Start._sleep`. -/
inductive FlowEvent where
  | execTask (k : Nat) (name : String)
  | taskPause (secs : Nat)
deriving DecidableEq, Repr

/-- The planning loop of `Start.flow` (lines 72-82): each list-valued
slot consumes the next value of the random stream `rand` (the `j`-th
`random.choice` call picks index `rand j % alts.length`); a single name
is planned as-is.  `none` models the `IndexError` that `random.choice`
raises on an empty list (which the surrounding `try` turns into a
`False` return). -/
def planTasks (rand : Nat → Nat) : List TaskSpec → Nat → Option (List String)
  | [], _ => some []
  | TaskSpec.single n :: rest, j => (planTasks rand rest j).map (n :: ·)
  | TaskSpec.choice alts :: rest, j =>
    match alts.get? (rand j % alts.length) with
    | none => none
    | some t => (planTasks rand rest (j + 1)).map (t :: ·)

/-- ASCII lowercasing of one character, as Python's `str.lower` acts on
the ASCII task names used by the dispatch table. -/
def lowerChar (c : Char) : Char :=
  if 'A' ≤ c ∧ c ≤ 'Z' then Char.ofNat (c.toNat + 32) else c

/-- Python's `task.lower()` (`start.py` line 88) on ASCII task names
(`String.toLower` itself is defined by well-founded recursion and is
kept out of the embedding for executability). -/
def pyLower (s : String) : String :=
  String.mk (s.data.map lowerChar)

/-- The execution loop of `Start.flow` (lines 87-91): each planned task
is lowered, executed via `Start._execute_task` (its result discarded;
`exec k name` says whether the `k`-th execution returns or raises — an
unknown name only logs a warning, i.e. returns), then `Start._sleep`
pauses.  A raised exception escapes the loop to the outer `except`,
which returns `False`; tasks after it never run and its pause is
skipped. -/
def runTasks (exec : Nat → String → TaskOutcome) (pauses : Nat → Nat) :
    List String → Nat → Bool × List FlowEvent
  | [], _ => (true, [])
  | t :: rest, k =>
    match exec k (pyLower t) with
    | TaskOutcome.raise => (false, [FlowEvent.execTask k (pyLower t)])
    | TaskOutcome.ret =>
      let restRun := runTasks exec pauses rest (k + 1)
      (restRun.1,
        FlowEvent.execTask k (pyLower t) :: FlowEvent.taskPause (pauses k) :: restRun.2)

/-- `Start.flow` (lines 55-95): returns `False` without executing
anything when the session is not initialized (lines 63-65) or when
planning raises; otherwise plans once, then runs the fixed planned
sequence. -/
def flow (hasSession : Bool) (tasks : List TaskSpec) (rand : Nat → Nat)
    (exec : Nat → String → TaskOutcome) (pauses : Nat → Nat) : Bool × List FlowEvent :=
  if hasSession then
    match planTasks rand tasks 0 with
    | none => (false, [])
    | some planned => runTasks exec pauses planned 0
  else (false, [])

/-- Expected trace of a run of `names` starting at position `start` in
which every task returns: each task event is followed by its pause. -/
def okTrace (pauses : Nat → Nat) : List String → Nat → List FlowEvent
  | [], _ => []
  | t :: rest, k =>
    FlowEvent.execTask k (pyLower t) :: FlowEvent.taskPause (pauses k) :: okTrace pauses rest (k + 1)

/-- The lowered names of the tasks actually executed in a flow trace, in
order. -/
def execTaskNames (t : List FlowEvent) : List String :=
  t.filterMap fun e => match e with | FlowEvent.execTask _ n => some n | _ => none

/-- `instance.flow` as the operation handed to `_execute_with_retries`
(`process.py` line 84): every retry attempt `n` re-enters `Start.flow`,
whose planning step draws fresh randomness (`gRand n`) from the global
generator and whose tasks run anew (`exec n`). -/
def flowAsRetryOp (hasSession : Bool) (tasks : List TaskSpec) (gRand : Nat → Nat → Nat)
    (exec : Nat → Nat → String → TaskOutcome) (pauses : Nat → Nat) (attempt : Nat) :
    OpOutcome :=
  OpOutcome.ret (OpResult.boolRes (flow hasSession tasks (gRand attempt) (exec attempt) pauses).1)

/-! ## Account selector (`process.py`, `_get_accounts_to_process`) -/

/-- The ad hoc record returned by `_get_accounts_to_process`
(lines 138-139). -/
structure AccountsInfo where
  accounts : List String
  start_index : Int
  end_index : Int
  order : String
deriving Repr

/-- Python's `l[a:b]` for a non-negative start `a` and an arbitrary
integer end `b` (a negative `b` counts from the end of the list). -/
def pySlice (l : List String) (a : Nat) (b : Int) : List String :=
  let n : Int := l.length
  let b' : Int := if b < 0 then max 0 (n + b) else min b n
  (l.take b'.toNat).drop a

/-- Python's `min` over a (nonempty) list of ints; 0 on the empty list,
which the caller never passes. -/
def pyMin (l : List Int) : Int :=
  match l with
  | [] => 0
  | a :: rest => rest.foldl min a

/-- Python's `max` over a (nonempty) list of ints; 0 on the empty list,
which the caller never passes. -/
def pyMax (l : List Int) : Int :=
  match l with
  | [] => 0
  | a :: rest => rest.foldl max a

/-- `_get_accounts_to_process(config, private_keys)` (`process.py` lines
121-139).  `accountsRange` is `config.SETTINGS.ACCOUNTS_RANGE`, `exact`
is `config.SETTINGS.EXACT_ACCOUNTS_TO_USE`, and `shuffle` models
`random.shuffle` as an arbitrary permutation applied to
`list(range(len(accounts)))`. -/
def getAccountsToProcess (shuffle : List Nat → List Nat) (accountsRange : Int × Int)
    (exact : List Int) (privateKeys : List String) : AccountsInfo :=
  let selected : List String × Int × Int :=
    if accountsRange.1 = 0 ∧ accountsRange.2 = 0 then
      if exact ≠ [] then
        let idxs := exact.map (· - 1)
        (idxs.filterMap fun i =>
            if 0 ≤ i ∧ i < (privateKeys.length : Int) then privateKeys[i.toNat]? else none,
          pyMin exact, pyMax exact)
      else (privateKeys, 1, (privateKeys.length : Int))
    else
      (pySlice privateKeys (max 0 (accountsRange.1 - 1)).toNat accountsRange.2,
        accountsRange.1, accountsRange.2)
  let accounts := selected.1
  let indices := shuffle (List.range accounts.length)
  { accounts := indices.filterMap fun i => accounts[i]?
    start_index := selected.2.1
    end_index := selected.2.2
    order := String.intercalate " " (indices.map fun i => toString (selected.2.1 + (i : Int))) }

/-- The selection the spec describes for a non-empty explicit set under a
degenerate range: exactly the accounts at the configured 1-based indices
that lie within `[1, m]`, in configured order, dropping out-of-range
indices. -/
def specExplicitSelection (exact : List Int) (privateKeys : List String) : List String :=
  exact.filterMap fun i =>
    if 1 ≤ i ∧ i ≤ (privateKeys.length : Int) then privateKeys[(i - 1).toNat]? else none

/-! ## Resource cycler (`process.py`, `_cycle_list`) and per-account
input construction (`start`, lines 39-60) -/

/-- `_cycle_list(items, length)` (`process.py` lines 142-144). -/
def cycleList (items : List String) (length : Nat) : List String :=
  (List.range length).map fun i => items.getD (i % items.length) ""

/-- The per-account input construction of `start` (`process.py` lines
39-60): proxies are stretched by `_cycle_list`, while the discord-token
and email lists — when non-empty — are indexed directly by account
position (`discord_tokens[idx]`, `emails[idx]`); only when empty are
they padded with `[""] * len(accounts)` (lines 40-41).  `none` models
the `IndexError` raised by a direct out-of-range index, which nothing in
`start` catches. -/
def buildAccountInputs (proxies tokens emails : List String) (accounts : List String) :
    Option (List (String × String × String)) :=
  let n := accounts.length
  let cycled := cycleList proxies n
  let toks := if tokens.isEmpty then List.replicate n "" else tokens
  let ems := if emails.isEmpty then List.replicate n "" else emails
  (List.range n).mapM fun idx => do
    let t ← toks[idx]?
    let e ← ems[idx]?
    pure (cycled.getD idx "", t, e)

/-! ## Concurrency gate (`process.py`, `start` line 44 and
`_launch_account` lines 69-73)

`start` creates `asyncio.Semaphore(config.SETTINGS.THREADS)` and each
`_launch_account` wraps its `account_flow` call in
`async with semaphore`.  The semaphore is modelled as a labelled
transition system over the pipelines' phases: `acquire` needs a free
slot and moves a waiting pipeline inside; `release` frees the slot when
the pipeline leaves. -/

/-- Phase of one pipeline with respect to the admission gate. -/
inductive Phase where
  | waiting
  | inside
  | done
deriving DecidableEq, Repr

/-- State of the gate: free slots of the semaphore plus each pipeline's
phase. -/
structure GateState where
  avail : Nat
  phases : List Phase
deriving DecidableEq, Repr

/-- Initial state of a run with capacity `k` and `n` pipelines. -/
def initGateState (k n : Nat) : GateState :=
  { avail := k, phases := List.replicate n Phase.waiting }

/-- One scheduler step: `asyncio.Semaphore.acquire` only completes when
the internal counter is positive, decrementing it; `release` increments
it when the `async with` block exits. -/
inductive GateStep : GateState → GateState → Prop where
  | acquire (s : GateState) (i c : Nat)
      (hw : s.phases[i]? = some Phase.waiting) (ha : s.avail = c + 1) :
      GateStep s { avail := c, phases := s.phases.set i Phase.inside }
  | release (s : GateState) (i : Nat)
      (hi : s.phases[i]? = some Phase.inside) :
      GateStep s { avail := s.avail + 1, phases := s.phases.set i Phase.done }

/-- Reachability under any interleaving of pipeline suspensions. -/
inductive GateReach (s : GateState) : GateState → Prop where
  | refl : GateReach s s
  | tail {t u : GateState} : GateReach s t → GateStep t u → GateReach s u

/-- Number of pipelines currently inside the admitted section. -/
def insideCount (s : GateState) : Nat :=
  s.phases.countP fun ph => decide (ph = Phase.inside)

/-! ## Lemmas about the retry executor -/

theorem invokeCount_failPairTrace (p : Nat → Nat) (d : Nat) :
    ∀ a, invokeCount (failPairTrace p a d) = d := by
  induction d with
  | zero => intro a; rfl
  | succ d ih =>
    intro a
    have h2 := ih (a + 1)
    simp only [invokeCount] at h2 ⊢
    simp only [failPairTrace, List.countP_cons]
    simp [h2]

theorem pauseCount_failPairTrace (p : Nat → Nat) (d : Nat) :
    ∀ a, pauseCount (failPairTrace p a d) = d := by
  induction d with
  | zero => intro a; rfl
  | succ d ih =>
    intro a
    have h2 := ih (a + 1)
    simp only [pauseCount] at h2 ⊢
    simp only [failPairTrace, List.countP_cons]
    simp [h2]

theorem failTrace_eq_failPairTrace (p : Nat → Nat) (f : Nat) :
    ∀ a, failTrace p a (f + 1) = failPairTrace p a f ++ [RetryEvent.invoke (a + f)] := by
  induction f with
  | zero => intro a; simp [failTrace, failPairTrace]
  | succ f ih =>
    intro a
    have h : a + (f + 1) = (a + 1) + f := by omega
    show failTrace p a (f + 2) = _
    simp [failTrace, failPairTrace, ih (a + 1), h]

theorem retryAux_fail_all (op : Nat → OpOutcome) (p : Nat → Nat) (attempts : Nat) :
    ∀ fuel attempt, attempt + fuel = attempts →
    (∀ i, attempt ≤ i → i < attempts → failsRet (op i) = true) →
    retryAux op p attempts attempt fuel = (Except.ok false, failTrace p attempt fuel) := by
  intro fuel
  induction fuel with
  | zero => intro attempt _ _; rfl
  | succ fuel ih =>
    intro attempt hatt hfail
    have hf := hfail attempt (Nat.le_refl _) (by omega)
    cases hop : op attempt with
    | raise => rw [hop] at hf; simp [failsRet] at hf
    | ret r =>
      rw [hop] at hf
      have hr : isSuccess r = false := by
        cases h : isSuccess r with
        | false => rfl
        | true => simp [failsRet, h] at hf
      cases fuel with
      | zero =>
        have hng : ¬ attempt < attempts - 1 := by omega
        simp [retryAux, hop, hr, hng, failTrace]
      | succ fuel' =>
        have hlt : attempt < attempts - 1 := by omega
        have hrec := ih (attempt + 1) (by omega)
          (fun i h1 h2 => hfail i (by omega) h2)
        rw [retryAux, hop]
        simp only [hr, Bool.false_eq_true, if_false, if_pos hlt, hrec]
        simp [failTrace]

theorem retryAux_stop (op : Nat → OpOutcome) (p : Nat → Nat) (attempts : Nat)
    (res : Except Unit Bool) :
    ∀ d attempt fuel, d < fuel → attempt + fuel = attempts →
    (∀ i, attempt ≤ i → i < attempt + d → failsRet (op i) = true) →
    ((op (attempt + d) = OpOutcome.raise ∧ res = Except.error ()) ∨
      (succeedsRet (op (attempt + d)) = true ∧ res = Except.ok true)) →
    retryAux op p attempts attempt fuel =
      (res, failPairTrace p attempt d ++ [RetryEvent.invoke (attempt + d)]) := by
  intro d
  induction d with
  | zero =>
    intro attempt fuel hd hatt _ hstop
    cases fuel with
    | zero => omega
    | succ fuel =>
      rcases hstop with ⟨hop, hres⟩ | ⟨hs, hres⟩
      · rw [Nat.add_zero] at hop
        simp [retryAux, hop, hres, failPairTrace]
      · rw [Nat.add_zero] at hs
        cases hop : op attempt with
        | raise => rw [hop] at hs; simp [succeedsRet] at hs
        | ret r =>
          rw [hop] at hs
          have hr : isSuccess r = true := by simpa [succeedsRet] using hs
          simp [retryAux, hop, hr, hres, failPairTrace]
  | succ d ih =>
    intro attempt fuel hd hatt hfail hstop
    cases fuel with
    | zero => omega
    | succ fuel =>
      have hf := hfail attempt (Nat.le_refl _) (by omega)
      cases hop : op attempt with
      | raise => rw [hop] at hf; simp [failsRet] at hf
      | ret r =>
        rw [hop] at hf
        have hr : isSuccess r = false := by
          cases h : isSuccess r with
          | false => rfl
          | true => simp [failsRet, h] at hf
        have hlt : attempt < attempts - 1 := by omega
        have hshift : attempt + (d + 1) = (attempt + 1) + d := by omega
        have hrec := ih (attempt + 1) fuel (by omega) (by omega)
          (fun i h1 h2 => hfail i (by omega) (by omega))
          (by rw [← hshift]; exact hstop)
        simp [retryAux, hop, hr, hlt, hrec, failPairTrace, hshift]

/-- Claim C5 — For every retry policy with `maxAttempts = k ≥ 1` and every
operation: failing on the first `j - 1` invocations and succeeding on
invocation `j ≤ k` makes `_execute_with_retries` return true after
exactly `j` invocations and `j - 1` inter-attempt pauses; failing on all
`k` invocations makes it return false after exactly `k` invocations and
`k - 1` pauses, with no pause after the final attempt (the trace ends
with the last invocation).  Success of an invocation means it returned
the boolean `True` or a tuple whose first component is `True`. -/
theorem retry_executor_counts (k j : Nat) (op : Nat → OpOutcome) (pauses : Nat → Nat)
    (hk : 1 ≤ k) :
    ((1 ≤ j ∧ j ≤ k ∧ (∀ i, i < j - 1 → failsRet (op i) = true) ∧
        succeedsRet (op (j - 1)) = true) →
      (executeWithRetries k op pauses).1 = Except.ok true ∧
      invokeCount (executeWithRetries k op pauses).2 = j ∧
      pauseCount (executeWithRetries k op pauses).2 = j - 1) ∧
    ((∀ i, i < k → failsRet (op i) = true) →
      (executeWithRetries k op pauses).1 = Except.ok false ∧
      invokeCount (executeWithRetries k op pauses).2 = k ∧
      pauseCount (executeWithRetries k op pauses).2 = k - 1 ∧
      (executeWithRetries k op pauses).2.getLast? = some (RetryEvent.invoke (k - 1))) := by
  constructor
  · rintro ⟨hj1, hjk, hfail, hsucc⟩
    have hstop := retryAux_stop op pauses k (Except.ok true) (j - 1) 0 k
      (by omega) (by omega)
      (fun i h1 h2 => hfail i (by omega))
      (Or.inr ⟨by simpa using hsucc, rfl⟩)
    rw [executeWithRetries, hstop]
    refine ⟨rfl, ?_, ?_⟩
    · simp only [invokeCount, List.countP_append]
      have := invokeCount_failPairTrace pauses (j - 1) 0
      simp only [invokeCount] at this
      simp [this]
      omega
    · simp only [pauseCount, List.countP_append]
      have := pauseCount_failPairTrace pauses (j - 1) 0
      simp only [pauseCount] at this
      simp [this]
  · intro hfail
    have hall := retryAux_fail_all op pauses k k 0 (by omega)
      (fun i _ h2 => hfail i h2)
    rw [executeWithRetries, hall]
    obtain ⟨k', rfl⟩ : ∃ k', k = k' + 1 := ⟨k - 1, by omega⟩
    have hbr := failTrace_eq_failPairTrace pauses k' 0
    rw [hbr]
    refine ⟨rfl, ?_, ?_, ?_⟩
    · simp only [invokeCount, List.countP_append]
      have := invokeCount_failPairTrace pauses k' 0
      simp only [invokeCount] at this
      simp [this]
    · simp only [pauseCount, List.countP_append]
      have := pauseCount_failPairTrace pauses k' 0
      simp only [pauseCount] at this
      simp [this]
    · simp [List.getLast?_concat]

/-- Witness for `retry_executor_counts`: with `k = 3` and an operation
failing twice then succeeding, the executor returns true after 3
invocations and 2 pauses. -/
theorem retry_executor_counts_witness :
    (executeWithRetries 3 (fun n => OpOutcome.ret (OpResult.boolRes (n == 2))) (fun _ => 7)).1 =
        Except.ok true ∧
    invokeCount (executeWithRetries 3 (fun n => OpOutcome.ret (OpResult.boolRes (n == 2)))
        (fun _ => 7)).2 = 3 ∧
    pauseCount (executeWithRetries 3 (fun n => OpOutcome.ret (OpResult.boolRes (n == 2)))
        (fun _ => 7)).2 = 2 :=
  (retry_executor_counts 3 3 (fun n => OpOutcome.ret (OpResult.boolRes (n == 2))) (fun _ => 7)
    (by decide)).1 ⟨by decide, by decide, fun i hi => by interval_cases i <;> decide, by decide⟩

/-! ## Lemmas about the account pipeline -/

theorem executeWithRetries_fail_all (k : Nat) (op : Nat → OpOutcome) (p : Nat → Nat)
    (hfail : ∀ i, i < k → failsRet (op i) = true) :
    executeWithRetries k op p = (Except.ok false, failTrace p 0 k) :=
  retryAux_fail_all op p k k 0 (by omega) (fun i _ h2 => hfail i h2)

theorem invoke_zero_mem (k : Nat) (op : Nat → OpOutcome) (p : Nat → Nat) (hk : 1 ≤ k) :
    RetryEvent.invoke 0 ∈ (executeWithRetries k op p).2 := by
  obtain ⟨k', rfl⟩ : ∃ k', k = k' + 1 := ⟨k - 1, by omega⟩
  rw [executeWithRetries, retryAux]
  cases hop : op 0 with
  | raise => simp
  | ret r =>
    by_cases hr : isSuccess r = true
    · simp [hr]
    · by_cases hl : 0 < k'
      · simp [hr, hl]
      · simp [hr, hl]

theorem successReportCount_append (l1 l2 : List PipeEvent) :
    successReportCount (l1 ++ l2) = successReportCount l1 + successReportCount l2 :=
  List.countP_append _ _ _

theorem errorReportCount_append (l1 l2 : List PipeEvent) :
    errorReportCount (l1 ++ l2) = errorReportCount l1 + errorReportCount l2 :=
  List.countP_append _ _ _

theorem successReportCount_map_initEv (l : List RetryEvent) :
    successReportCount (l.map PipeEvent.initEv) = 0 := by
  simp [successReportCount, List.countP_map, Function.comp]

theorem successReportCount_map_flowEv (l : List RetryEvent) :
    successReportCount (l.map PipeEvent.flowEv) = 0 := by
  simp [successReportCount, List.countP_map, Function.comp]

theorem errorReportCount_map_initEv (l : List RetryEvent) :
    errorReportCount (l.map PipeEvent.initEv) = 0 := by
  simp [errorReportCount, List.countP_map, Function.comp]

theorem errorReportCount_map_flowEv (l : List RetryEvent) :
    errorReportCount (l.map PipeEvent.flowEv) = 0 := by
  simp [errorReportCount, List.countP_map, Function.comp]

/-- Claim C1 (counterexample to the claim as stated) — with an attempt
budget of 2 and an operation that raises on its first invocation,
`_execute_with_retries` neither retries nor returns false: the exception
propagates out of the executor after a single invocation (the executor
body has no exception handler). -/
theorem retry_exception_cex :
    (executeWithRetries 2 (fun _ => OpOutcome.raise) (fun _ => 0)).1 = Except.error () ∧
    (executeWithRetries 2 (fun _ => OpOutcome.raise) (fun _ => 0)).1 ≠ Except.ok false ∧
    invokeCount (executeWithRetries 2 (fun _ => OpOutcome.raise) (fun _ => 0)).2 = 1 :=
  ⟨rfl, fun h => Except.noConfusion h, rfl⟩

/-- Claim C1 (amended) — if invocation `d` of the operation raises after
`d` failed (value-returning) invocations, the retry executor stops
immediately and propagates the exception: it performs exactly `d + 1`
invocations and `d` pauses and returns neither true nor false.  The
exception is caught only at the pipeline boundary (`account_flow`'s
`except` handler), whose trace then ends with an error report. -/
theorem retry_exception_propagates (k d : Nat) (op flowOp : Nat → OpOutcome)
    (p1 p2 : Nat → Nat) (hd : d < k)
    (hfail : ∀ i, i < d → failsRet (op i) = true)
    (hraise : op d = OpOutcome.raise) :
    (executeWithRetries k op p1).1 = Except.error () ∧
    invokeCount (executeWithRetries k op p1).2 = d + 1 ∧
    pauseCount (executeWithRetries k op p1).2 = d ∧
    (accountFlow k op flowOp p1 p2).getLast? = some PipeEvent.reportError := by
  have hstop : executeWithRetries k op p1 =
      (Except.error (), failPairTrace p1 0 d ++ [RetryEvent.invoke d]) := by
    have := retryAux_stop op p1 k (Except.error ()) d 0 k hd (by omega)
      (fun i h1 h2 => hfail i (by omega)) (Or.inl ⟨by simpa using hraise, rfl⟩)
    simpa [executeWithRetries] using this
  refine ⟨by rw [hstop], ?_, ?_, ?_⟩
  · rw [hstop]
    simp only [invokeCount, List.countP_append]
    have := invokeCount_failPairTrace p1 d 0
    simp only [invokeCount] at this
    simp [this]
  · rw [hstop]
    simp only [pauseCount, List.countP_append]
    have := pauseCount_failPairTrace p1 d 0
    simp only [pauseCount] at this
    simp [this]
  · simp only [accountFlow, hstop]
    exact List.getLast?_concat _

/-- Witness for `retry_exception_propagates` at budget 2 with one failed
invocation followed by a raising one. -/
theorem retry_exception_propagates_witness :
    (executeWithRetries 2
        (fun n => if n = 0 then OpOutcome.ret (OpResult.boolRes false) else OpOutcome.raise)
        (fun _ => 3)).1 = Except.error () ∧
    invokeCount (executeWithRetries 2
        (fun n => if n = 0 then OpOutcome.ret (OpResult.boolRes false) else OpOutcome.raise)
        (fun _ => 3)).2 = 2 ∧
    pauseCount (executeWithRetries 2
        (fun n => if n = 0 then OpOutcome.ret (OpResult.boolRes false) else OpOutcome.raise)
        (fun _ => 3)).2 = 1 ∧
    (accountFlow 2
        (fun n => if n = 0 then OpOutcome.ret (OpResult.boolRes false) else OpOutcome.raise)
        (fun _ => OpOutcome.ret (OpResult.boolRes true)) (fun _ => 3)
        (fun _ => 4)).getLast? = some PipeEvent.reportError :=
  retry_exception_propagates 2 1
    (fun n => if n = 0 then OpOutcome.ret (OpResult.boolRes false) else OpOutcome.raise)
    (fun _ => OpOutcome.ret (OpResult.boolRes true)) (fun _ => 3) (fun _ => 4)
    (by decide) (fun i hi => by interval_cases i ; decide) (by decide)

/-- Claim C2 (counterexample to the claim as stated) — with a single
configured attempt, an initialize phase that fails it, and a flow
operation that fails, the pipeline trace contains an invocation of the
flow operation: line 84 of `process.py`
(`success &= await _execute_with_retries(instance.flow, ...)`) evaluates
its right operand eagerly, so the flow phase is not skipped. -/
theorem init_failure_invokes_flow_cex :
    accountFlow 1 (fun _ => OpOutcome.ret (OpResult.boolRes false))
        (fun _ => OpOutcome.ret (OpResult.boolRes false)) (fun _ => 0) (fun _ => 0) =
      [PipeEvent.initEv (RetryEvent.invoke 0), PipeEvent.flowEv (RetryEvent.invoke 0),
        PipeEvent.reportError] ∧
    PipeEvent.flowEv (RetryEvent.invoke 0) ∈
      accountFlow 1 (fun _ => OpOutcome.ret (OpResult.boolRes false))
        (fun _ => OpOutcome.ret (OpResult.boolRes false)) (fun _ => 0) (fun _ => 0) := by
  decide

/-- Claim C2 (amended) — for every pipeline whose initialize phase fails
on all configured attempts (returning falsy values), the pipeline ends
in reporting with `succeeded = false`; however it does not skip the flow
phase: the flow operation is still invoked (line 84's `&=` is eager),
its result merely cannot turn the pipeline outcome into a success. -/
theorem init_failure_reports_error (k : Nat) (initOp flowOp : Nat → OpOutcome)
    (p1 p2 : Nat → Nat) (hk : 1 ≤ k)
    (hfail : ∀ i, i < k → failsRet (initOp i) = true) :
    (accountFlow k initOp flowOp p1 p2).getLast? = some PipeEvent.reportError ∧
    PipeEvent.flowEv (RetryEvent.invoke 0) ∈ accountFlow k initOp flowOp p1 p2 := by
  have hinit : executeWithRetries k initOp p1 = (Except.ok false, failTrace p1 0 k) :=
    executeWithRetries_fail_all k initOp p1 hfail
  have hmem : RetryEvent.invoke 0 ∈ (executeWithRetries k flowOp p2).2 :=
    invoke_zero_mem k flowOp p2 hk
  simp only [accountFlow, hinit]
  cases hfr : (executeWithRetries k flowOp p2).1 with
  | error e =>
    refine ⟨List.getLast?_concat _, ?_⟩
    exact List.mem_append.mpr (Or.inl (List.mem_append.mpr
      (Or.inr (List.mem_map_of_mem PipeEvent.flowEv hmem))))
  | ok s2 =>
    refine ⟨List.getLast?_concat _, ?_⟩
    exact List.mem_append.mpr (Or.inl (List.mem_append.mpr
      (Or.inr (List.mem_map_of_mem PipeEvent.flowEv hmem))))

/-- Witness for `init_failure_reports_error` with budget 1 and a failing
initialize. -/
theorem init_failure_reports_error_witness :
    (accountFlow 1 (fun _ => OpOutcome.ret (OpResult.boolRes false))
        (fun _ => OpOutcome.ret (OpResult.boolRes true)) (fun _ => 0)
        (fun _ => 0)).getLast? = some PipeEvent.reportError ∧
    PipeEvent.flowEv (RetryEvent.invoke 0) ∈
      accountFlow 1 (fun _ => OpOutcome.ret (OpResult.boolRes false))
        (fun _ => OpOutcome.ret (OpResult.boolRes true)) (fun _ => 0) (fun _ => 0) :=
  init_failure_reports_error 1 (fun _ => OpOutcome.ret (OpResult.boolRes false))
    (fun _ => OpOutcome.ret (OpResult.boolRes true)) (fun _ => 0) (fun _ => 0)
    (by decide) (fun i hi => by interval_cases i ; decide)

/-- Claim C4 — for every account pipeline, the outcome reporter is
invoked exactly once: every `account_flow` trace contains exactly one
report event, so an account index is appended under at most one of the
two ledger roots (success or failure) per run. -/
theorem pipeline_reports_once (k : Nat) (initOp flowOp : Nat → OpOutcome)
    (p1 p2 : Nat → Nat) :
    successReportCount (accountFlow k initOp flowOp p1 p2) +
      errorReportCount (accountFlow k initOp flowOp p1 p2) = 1 := by
  simp only [accountFlow]
  cases hir : (executeWithRetries k initOp p1).1 with
  | error e =>
    simp only [successReportCount_append, errorReportCount_append,
      successReportCount_map_initEv, errorReportCount_map_initEv]
    rfl
  | ok s1 =>
    cases hfr : (executeWithRetries k flowOp p2).1 with
    | error e =>
      simp only [successReportCount_append, errorReportCount_append,
        successReportCount_map_initEv, errorReportCount_map_initEv,
        successReportCount_map_flowEv, errorReportCount_map_flowEv]
      rfl
    | ok s2 =>
      cases hs : s1 && s2 with
      | false =>
        simp only [hs, if_neg Bool.false_ne_true, successReportCount_append,
          errorReportCount_append, successReportCount_map_initEv,
          errorReportCount_map_initEv, successReportCount_map_flowEv,
          errorReportCount_map_flowEv]
        rfl
      | true =>
        simp only [hs, if_pos rfl, successReportCount_append,
          errorReportCount_append, successReportCount_map_initEv,
          errorReportCount_map_initEv, successReportCount_map_flowEv,
          errorReportCount_map_flowEv]
        rfl

/-! ## Lemmas about the flow operation -/

theorem runTasks_ok (exec : Nat → String → TaskOutcome) (p : Nat → Nat) (names : List String) :
    ∀ start, (∀ i, i < names.length → exec (start + i) (pyLower (names.getD i "")) = TaskOutcome.ret) →
    runTasks exec p names start = (true, okTrace p names start) := by
  induction names with
  | nil => intro start _; rfl
  | cons t rest ih =>
    intro start h
    have h0 : exec start (pyLower t) = TaskOutcome.ret := by
      simpa using h 0 (by simp)
    have hrec := ih (start + 1) (fun i hi => by
      have := h (i + 1) (by simpa using Nat.succ_lt_succ hi)
      rw [List.getD_cons_succ] at this
      have heq : start + (i + 1) = start + 1 + i := by omega
      rw [heq] at this
      exact this)
    rw [runTasks, h0]
    simp [hrec, okTrace]

theorem runTasks_abort (exec : Nat → String → TaskOutcome) (p : Nat → Nat) (names : List String) :
    ∀ start j, j < names.length →
    (∀ i, i < j → exec (start + i) (pyLower (names.getD i "")) = TaskOutcome.ret) →
    exec (start + j) (pyLower (names.getD j "")) = TaskOutcome.raise →
    runTasks exec p names start =
      (false, okTrace p (names.take j) start ++
        [FlowEvent.execTask (start + j) (pyLower (names.getD j ""))]) := by
  induction names with
  | nil => intro start j hj _ _; simp at hj
  | cons t rest ih =>
    intro start j hj hpre hraise
    cases j with
    | zero =>
      have h0 : exec start (pyLower t) = TaskOutcome.raise := by simpa using hraise
      rw [runTasks, h0]
      simp [okTrace]
    | succ j =>
      have h0 : exec start (pyLower t) = TaskOutcome.ret := by
        simpa using hpre 0 (by omega)
      have hraise' : exec (start + 1 + j) (pyLower (rest.getD j "")) = TaskOutcome.raise := by
        have := hraise
        rw [List.getD_cons_succ] at this
        have heq : start + (j + 1) = start + 1 + j := by omega
        rw [heq] at this
        exact this
      have hrec := ih (start + 1) j (by simpa using Nat.lt_of_succ_lt_succ hj)
        (fun i hi => by
          have := hpre (i + 1) (by omega)
          rw [List.getD_cons_succ] at this
          have heq : start + (i + 1) = start + 1 + i := by omega
          rw [heq] at this
          exact this)
        hraise'
      rw [runTasks, h0]
      have heq2 : start + (j + 1) = start + 1 + j := by omega
      simp [hrec, okTrace, List.getD_cons_succ, heq2]

theorem execTaskNames_okTrace (p : Nat → Nat) (names : List String) :
    ∀ start, execTaskNames (okTrace p names start) = names.map pyLower := by
  induction names with
  | nil => intro start; rfl
  | cons t rest ih =>
    intro start
    simp only [okTrace, execTaskNames, List.filterMap_cons]
    have := ih (start + 1)
    simp only [execTaskNames] at this
    simp [this]

/-- Claim C3 (counterexample to the claim as stated) — in a flow
invocation with resolved sequence `["logs", "izumi"]` where the first
task raises, the second task is never executed and no inter-task pause
is performed after the raising task: the `try`/`except` of `Start.flow`
wraps the whole task loop, so a raised exception aborts the remaining
tasks instead of being isolated per task. -/
theorem task_exception_cex :
    flow true [TaskSpec.single "logs", TaskSpec.single "izumi"] (fun _ => 0)
        (fun k _ => if k = 0 then TaskOutcome.raise else TaskOutcome.ret) (fun _ => 5) =
      (false, [FlowEvent.execTask 0 "logs"]) ∧
    FlowEvent.execTask 1 "izumi" ∉
      (flow true [TaskSpec.single "logs", TaskSpec.single "izumi"] (fun _ => 0)
        (fun k _ => if k = 0 then TaskOutcome.raise else TaskOutcome.ret) (fun _ => 5)).2 ∧
    ((flow true [TaskSpec.single "logs", TaskSpec.single "izumi"] (fun _ => 0)
        (fun k _ => if k = 0 then TaskOutcome.raise else TaskOutcome.ret) (fun _ => 5)).2.countP
      fun e => match e with | FlowEvent.taskPause _ => true | _ => false) = 0 := by
  decide

/-- Claim C3 (amended) — within a single flow invocation, a task failure
signaled by a returned value is ignored (the handler's result is
discarded) and does not abort the remaining tasks, and the randomized
inter-task pause runs after every task whose handler returns; but a task
that raises an exception aborts the remaining tasks and skips its own
post-task pause — the exception is swallowed by `Start.flow` itself,
which returns false. -/
theorem task_exception_aborts (tasks : List TaskSpec) (rand : Nat → Nat)
    (exec : Nat → String → TaskOutcome) (p : Nat → Nat) (planned : List String) (j : Nat)
    (hplan : planTasks rand tasks 0 = some planned) :
    ((∀ i, i < planned.length → exec i (pyLower (planned.getD i "")) = TaskOutcome.ret) →
      flow true tasks rand exec p = (true, okTrace p planned 0)) ∧
    (j < planned.length →
      (∀ i, i < j → exec i (pyLower (planned.getD i "")) = TaskOutcome.ret) →
      exec j (pyLower (planned.getD j "")) = TaskOutcome.raise →
      flow true tasks rand exec p =
        (false, okTrace p (planned.take j) 0 ++
          [FlowEvent.execTask j (pyLower (planned.getD j ""))])) := by
  constructor
  · intro hret
    have := runTasks_ok exec p planned 0 (fun i hi => by simpa using hret i hi)
    simp [flow, hplan, this]
  · intro hj hpre hraise
    have := runTasks_abort exec p planned 0 j hj
      (fun i hi => by simpa using hpre i hi) (by simpa using hraise)
    simp [flow, hplan, this]

/-- Witness for `task_exception_aborts`: two tasks, the second raises;
the flow executes the first (with its pause), aborts before the second's
pause, and returns false. -/
theorem task_exception_aborts_witness :
    flow true [TaskSpec.single "logs", TaskSpec.single "izumi"] (fun _ => 0)
        (fun k _ => if k = 0 then TaskOutcome.ret else TaskOutcome.raise) (fun _ => 5) =
      (false, okTrace (fun _ => 5) (["logs", "izumi"].take 1) 0 ++
        [FlowEvent.execTask 1 (pyLower (["logs", "izumi"].getD 1 ""))]) :=
  (task_exception_aborts [TaskSpec.single "logs", TaskSpec.single "izumi"]
    (fun _ => 0) (fun k _ => if k = 0 then TaskOutcome.ret else TaskOutcome.raise)
    (fun _ => 5) ["logs", "izumi"] 1 (by decide)).2 (by decide)
    (fun i hi => by interval_cases i ; decide) (by decide)

/-- Claim C6 (counterexample to the claim as stated) — with task
configuration `[["a", "b"]]`, an always-raising task and a retry budget
of 2, the retry executor invokes the flow operation twice, and the two
invocations (drawing randomness streams `fun _ => 0` and `fun _ => 1`
respectively from the global generator) resolve and execute different
task sequences: `random.choice` runs inside `Start.flow`'s planning
step, so each retry re-rolls the choice. -/
theorem choice_reroll_cex :
    invokeCount (executeWithRetries 2
        (flowAsRetryOp true [TaskSpec.choice ["a", "b"]] (fun a _ => a)
          (fun _ _ _ => TaskOutcome.raise) (fun _ => 0)) (fun _ => 0)).2 = 2 ∧
    planTasks (fun _ => 0) [TaskSpec.choice ["a", "b"]] 0 = some ["a"] ∧
    planTasks (fun _ => 1) [TaskSpec.choice ["a", "b"]] 0 = some ["b"] ∧
    flow true [TaskSpec.choice ["a", "b"]] (fun _ => 0) (fun _ _ => TaskOutcome.raise)
        (fun _ => 0) = (false, [FlowEvent.execTask 0 "a"]) ∧
    flow true [TaskSpec.choice ["a", "b"]] (fun _ => 1) (fun _ _ => TaskOutcome.raise)
        (fun _ => 0) = (false, [FlowEvent.execTask 0 "b"]) := by
  decide

/-- Claim C6 (amended) — within a single invocation of the flow
operation, exactly one alternative is chosen per list-valued slot during
the planning step, and the resolved sequence is fixed before task
execution begins: the executed task names follow the plan exactly.  But
the choice is made at flow-invocation start, not pipeline start: each
retry attempt re-enters `Start.flow` and re-rolls the choices with fresh
randomness, so different attempts of the same pipeline may execute
different resolved sequences. -/
theorem plan_fixed_within_invocation (tasks : List TaskSpec) (rand : Nat → Nat)
    (exec : Nat → String → TaskOutcome) (p : Nat → Nat) (planned : List String)
    (hplan : planTasks rand tasks 0 = some planned)
    (hret : ∀ i, i < planned.length → exec i (pyLower (planned.getD i "")) = TaskOutcome.ret) :
    execTaskNames (flow true tasks rand exec p).2 = planned.map pyLower := by
  have hrun := runTasks_ok exec p planned 0 (fun i hi => by simpa using hret i hi)
  simp [flow, hplan, hrun, execTaskNames_okTrace]

/-- Witness for `plan_fixed_within_invocation` on the plan resolved from
`[["a", "b"]]` by the stream `fun _ => 0`. -/
theorem plan_fixed_within_invocation_witness :
    execTaskNames (flow true [TaskSpec.choice ["a", "b"]] (fun _ => 0)
        (fun _ _ => TaskOutcome.ret) (fun _ => 0)).2 = ["a"].map pyLower :=
  plan_fixed_within_invocation [TaskSpec.choice ["a", "b"]] (fun _ => 0)
    (fun _ _ => TaskOutcome.ret) (fun _ => 0) ["a"] (by decide)
    (fun i hi => by
      have h1 : i < 1 := by simpa using hi
      interval_cases i ; decide)

/-! ## Account selector, resource cycler and per-account inputs -/

theorem filterMap_get?_range (l : List String) :
    (List.range l.length).filterMap (fun i => l[i]?) = l := by
  induction l with
  | nil => rfl
  | cons a t ih =>
    rw [List.length_cons, List.range_succ_eq_map]
    rw [List.filterMap_cons, List.filterMap_map]
    have hc : ((fun i => (a :: t)[i]?) ∘ Nat.succ) = fun i => t[i]? := by
      funext i
      simp
    rw [hc, ih]
    simp

theorem filterMap_get?_perm (shuffle : List Nat → List Nat) (l : List String)
    (hperm : (shuffle (List.range l.length)).Perm (List.range l.length)) :
    ((shuffle (List.range l.length)).filterMap (fun i => l[i]?)).Perm l := by
  have h1 := hperm.filterMap (fun i => l[i]?)
  rw [filterMap_get?_range] at h1
  exact h1

/-- Claim C7 — for every account list and every non-empty explicit index
set under a degenerate `(0, 0)` range, the selector returns exactly the
accounts at the configured 1-based indices that lie within bounds
(silently dropping out-of-range indices, keeping no other account; the
result is a permutation of that selection because of the final shuffle),
and reports `start`/`end` as the min/max of the configured explicit
indices, not of the filtered ones. -/
theorem explicit_selection_spec (shuffle : List Nat → List Nat) (exact : List Int)
    (privateKeys : List String)
    (hperm : ∀ l : List Nat, (shuffle l).Perm l)
    (hex : exact ≠ []) :
    (getAccountsToProcess shuffle (0, 0) exact privateKeys).accounts.Perm
      (specExplicitSelection exact privateKeys) ∧
    (getAccountsToProcess shuffle (0, 0) exact privateKeys).start_index = pyMin exact ∧
    (getAccountsToProcess shuffle (0, 0) exact privateKeys).end_index = pyMax exact := by
  have hsel : (exact.map (· - 1)).filterMap (fun i =>
      if 0 ≤ i ∧ i < (privateKeys.length : Int) then privateKeys[i.toNat]? else none) =
      specExplicitSelection exact privateKeys := by
    rw [List.filterMap_map]
    unfold specExplicitSelection
    congr 1
    funext i
    show (if 0 ≤ i - 1 ∧ i - 1 < (privateKeys.length : Int)
        then privateKeys[(i - 1).toNat]? else none) = _
    by_cases h : 1 ≤ i ∧ i ≤ (privateKeys.length : Int)
    · rw [if_pos (by omega), if_pos h]
    · rw [if_neg (by omega), if_neg h]
  simp only [getAccountsToProcess, if_pos hex, hsel]
  norm_num
  exact filterMap_get?_perm shuffle (specExplicitSelection exact privateKeys)
    (hperm _)

/-- Witness for `explicit_selection_spec` on the spec's own example:
explicit set `{2, 5, 99}` against 10 accounts. -/
theorem explicit_selection_spec_witness :
    (getAccountsToProcess id (0, 0) [2, 5, 99]
        ["k1", "k2", "k3", "k4", "k5", "k6", "k7", "k8", "k9", "k10"]).accounts.Perm
      (specExplicitSelection [2, 5, 99]
        ["k1", "k2", "k3", "k4", "k5", "k6", "k7", "k8", "k9", "k10"]) ∧
    (getAccountsToProcess id (0, 0) [2, 5, 99]
        ["k1", "k2", "k3", "k4", "k5", "k6", "k7", "k8", "k9", "k10"]).start_index =
      pyMin [2, 5, 99] ∧
    (getAccountsToProcess id (0, 0) [2, 5, 99]
        ["k1", "k2", "k3", "k4", "k5", "k6", "k7", "k8", "k9", "k10"]).end_index =
      pyMax [2, 5, 99] :=
  explicit_selection_spec id [2, 5, 99]
    ["k1", "k2", "k3", "k4", "k5", "k6", "k7", "k8", "k9", "k10"]
    (fun l => List.Perm.refl l) (by decide)

/-- Claim C8 — for every target length `n > 0` and non-empty source list,
`_cycle_list` returns a list of length exactly `n` whose element at each
position `i < n` is `source[i mod m]`. -/
theorem cycle_list_spec (items : List String) (n : Nat) (_hn : 0 < n)
    (_hm : 0 < items.length) :
    (cycleList items n).length = n ∧
    ∀ i, i < n → (cycleList items n).getD i "" = items.getD (i % items.length) "" := by
  constructor
  · simp [cycleList]
  · intro i hi
    simp [cycleList, List.getD_eq_getElem?_getD, List.getElem?_map, List.getElem?_range, hi]

/-- Witness for `cycle_list_spec` with a 2-element source stretched to
length 5. -/
theorem cycle_list_spec_witness :
    (cycleList ["p", "q"] 5).length = 5 ∧
    ∀ i, i < 5 →
      (cycleList ["p", "q"] 5).getD i "" = ["p", "q"].getD (i % ["p", "q"].length) "" :=
  cycle_list_spec ["p", "q"] 5 (by decide) (by decide)

/-- Claim C10 — with 2 selected accounts, a 1-entry proxy list is
stretched by the cycler, and an empty discord-token list is padded with
empty strings; but a non-empty 1-entry discord-token list is indexed
directly by account position and never cycled or padded, so constructing
the per-account inputs fails with an index-out-of-range error (modelled
as `none`) during task construction. -/
theorem token_index_crash :
    buildAccountInputs ["p"] ["t"] [] ["a", "b"] = none ∧
    cycleList ["p"] 2 = ["p", "p"] ∧
    buildAccountInputs ["p"] [] [] ["a", "b"] =
      some [("p", "", ""), ("p", "", "")] := by
  decide

/-! ## Lemmas about the concurrency gate -/

theorem countP_set_exchange (p : Phase → Bool) (l : List Phase) :
    ∀ i a b, l[i]? = some a →
    (l.set i b).countP p + (if p a then 1 else 0) = l.countP p + (if p b then 1 else 0) := by
  induction l with
  | nil => intro i a b h; simp at h
  | cons x t ih =>
    intro i a b h
    cases i with
    | zero =>
      have hax : a = x := by simpa using h.symm
      subst hax
      simp only [List.set_cons_zero, List.countP_cons]
      omega
    | succ i =>
      have ht : t[i]? = some a := by simpa using h
      have := ih i a b ht
      simp only [List.set_cons_succ, List.countP_cons]
      omega

theorem insideCount_init (k n : Nat) : insideCount (initGateState k n) = 0 := by
  simp only [insideCount, initGateState]
  induction n with
  | zero => rfl
  | succ n ih => simp [List.replicate_succ, List.countP_cons, ih]

theorem gateReach_inv (k n : Nat) (s : GateState)
    (h : GateReach (initGateState k n) s) :
    s.avail + insideCount s = k := by
  induction h with
  | refl =>
    rw [insideCount_init]
    simp [initGateState]
  | tail hreach hstep ih =>
    rename_i t u
    cases hstep with
    | acquire i c hw ha =>
      have hx := countP_set_exchange (fun ph => decide (ph = Phase.inside)) t.phases
        i Phase.waiting Phase.inside hw
      simp only [insideCount] at ih ⊢
      simp at hx
      rw [ha] at ih
      omega
    | release i hi =>
      have hx := countP_set_exchange (fun ph => decide (ph = Phase.inside)) t.phases
        i Phase.inside Phase.done hi
      simp only [insideCount] at ih ⊢
      simp at hx
      omega

/-- Claim C9 — at every instant of a batch run with semaphore capacity
`THREADS = k ≥ 1` and `n` pipelines, in every state reachable under any
interleaving of acquire and release steps, the number of pipelines
inside the admitted section never exceeds `k`. -/
theorem gate_capacity_invariant (k n : Nat) (s : GateState) (_hk : 1 ≤ k)
    (h : GateReach (initGateState k n) s) :
    insideCount s ≤ k := by
  have := gateReach_inv k n s h
  omega

/-- Witness for `gate_capacity_invariant` at the initial state of a run
with capacity 1 and two pipelines. -/
theorem gate_capacity_invariant_witness :
    insideCount (initGateState 1 2) ≤ 1 :=
  gate_capacity_invariant 1 2 (initGateState 1 2) (by decide) GateReach.refl

end ManodTools
